import Mathlib

/-!
# Verification of the pay-slip splitter (`pay-slip-splitter.sh`)

Shallow embedding of the shell script that splits a monthly pay-slip PDF
into one PDF per employee.  The script:

* takes the input file path as `$1` and exits with status 1 when absent;
* sets `date=$(cut -d ' ' -f 1 <<< "$input_file")`, i.e. the input path up
  to (excluding) the first space, or the whole path when it has no space;
* holds two parallel hardcoded arrays `full_names` and `names`;
* for each name, scans every page `1..NumberOfPages`, extracting the page
  to `temp.pdf` and testing `pdftotext $temp_file - | grep -qi "$name"`;
* for each name with a non-empty page list runs
  `pdftk "$input_file" cat ${pages[@]} output "output/${date} ${full_name}.pdf"`;
* ends with `rm $temp_file`.

Pages are modelled by their `pdftotext` text; `grep -qi` is modelled as a
case-insensitive (ASCII case folding) substring search.
-/

namespace PaySlipSplitter

/-- The input PDF: its page count and the text `pdftotext` extracts from
each (1-based) page. -/
structure Doc where
  pageCount : Nat
  pageText : Nat → String

/-- One output write performed by `pdftk ... cat ${pages[@]} output <filename>`:
the target file name and the 1-based source pages concatenated into it. -/
structure OutputFile where
  filename : String
  pages : List Nat
deriving DecidableEq

/-- ASCII case folding: the case-insensitivity `grep -qi` applies to the
byte range `A`–`Z`.  Characters outside that range (accented letters
included) are left unchanged. -/
def lowerAscii (c : Char) : Char :=
  if 'A' ≤ c && c ≤ 'Z' then Char.ofNat (c.toNat + 32) else c

/-- Does the second list start with the first one? -/
def startsWithChars : List Char → List Char → Bool
  | [], _ => true
  | _ :: _, [] => false
  | a :: as, b :: bs => a == b && startsWithChars as bs

/-- Substring search: does `needle` occur contiguously inside `hay`? -/
def hasSub : List Char → List Char → Bool
  | n, [] => n.isEmpty
  | n, b :: bs => startsWithChars n (b :: bs) || hasSub n bs

/-- `pdftotext $temp_file - | grep -qi "$name"`: case-insensitive substring
test of `needle` against the page text `haystack`. -/
def containsNameCI (haystack needle : String) : Bool :=
  hasSub (needle.data.map lowerAscii) (haystack.data.map lowerAscii)

/-- The hardcoded `full_names` array of the script. -/
def full_names : List String :=
  ["Bernier Antoine", "Feltin Clément", "Madura Quentin", "Andres Alice",
   "Legeron Camille", "Bellec Maxime", "Auge Marc-Antoine"]

/-- The hardcoded `names` array of the script (last names, parallel to
`full_names`). -/
def names : List String :=
  ["Bernier", "Feltin", "Madura", "Andres", "Legeron", "Bellec", "Auge"]

/-- An employee: last name used for matching, full name used for naming
the output file. -/
structure Employee where
  lastName : String
  fullName : String
deriving DecidableEq

/-- The employee list the script iterates over: index `i` pairs
`names[i]` with `full_names[i]`. -/
def shellEmployees : List Employee :=
  (names.zip full_names).map fun p => ⟨p.1, p.2⟩

/-- `date=$(cut -d ' ' -f 1 <<< "$input_file")`: the input path up to the
first space (the whole path when it contains no space). -/
def date (input : String) : String :=
  ⟨input.data.takeWhile fun c => c != ' '⟩

/-- The pages collected for one name: the script scans pages `1..pageCount`
in increasing order and appends `page` whenever the grep test succeeds. -/
def pagesFor (doc : Doc) (lastName : String) : List Nat :=
  (List.range' 1 doc.pageCount).filter fun p => containsNameCI (doc.pageText p) lastName

/-- The `pdftk ... cat ... output` writes the script attempts, in employee
order: one file per employee whose page list is non-empty, named
`<date> <full name>.pdf`. -/
def attemptedWritesFor (employees : List Employee) (input : String) (doc : Doc) :
    List OutputFile :=
  employees.filterMap fun e =>
    let ps := pagesFor doc e.lastName
    if ps.isEmpty then none
    else some ⟨date input ++ " " ++ e.fullName ++ ".pdf", ps⟩

/-- The writes attempted by the script with its hardcoded employee list. -/
def attemptedWrites (input : String) (doc : Doc) : List OutputFile :=
  attemptedWritesFor shellEmployees input doc

/-- The files that actually appear on disk: `pdftk` does not create the
`output/` directory, so each write succeeds only when that directory
already exists. -/
def writtenFiles (outDirExists : Bool) (input : String) (doc : Doc) : List OutputFile :=
  if outDirExists then attemptedWrites input doc else []

/- ### Helper lemmas about the substring search -/

theorem startsWithChars_iff (n h : List Char) : startsWithChars n h = true ↔ n <+: h := by
  induction n generalizing h with
  | nil => simp [startsWithChars]
  | cons a as ih =>
    cases h with
    | nil => simp [startsWithChars]
    | cons b bs =>
      simp only [startsWithChars, Bool.and_eq_true, beq_iff_eq, ih, List.cons_prefix_cons]

theorem hasSub_iff (n h : List Char) : hasSub n h = true ↔ n <:+: h := by
  induction h with
  | nil => simp [hasSub, List.isEmpty_iff]
  | cons b bs ih =>
    simp only [hasSub, Bool.or_eq_true, startsWithChars_iff, ih, List.infix_cons_iff]

/- ### Helper lemmas about collected pages and attempted writes -/

theorem mem_pagesFor {doc : Doc} {lastName : String} {p : Nat} :
    p ∈ pagesFor doc lastName ↔
      1 ≤ p ∧ p ≤ doc.pageCount ∧ containsNameCI (doc.pageText p) lastName = true := by
  simp only [pagesFor, List.mem_filter, List.mem_range'_1]
  constructor
  · rintro ⟨⟨h1, h2⟩, h3⟩
    exact ⟨h1, by omega, h3⟩
  · rintro ⟨h1, h2, h3⟩
    exact ⟨⟨h1, by omega⟩, h3⟩

theorem pagesFor_pairwise (doc : Doc) (lastName : String) :
    (pagesFor doc lastName).Pairwise (· < ·) :=
  (List.pairwise_lt_range' 1 doc.pageCount).filter _

theorem pagesFor_subset (doc : Doc) (lastName : String) :
    pagesFor doc lastName ⊆ List.range' 1 doc.pageCount :=
  fun _ hp => (List.mem_filter.mp hp).1

theorem mem_attemptedWritesFor {es : List Employee} {input : String} {doc : Doc}
    {f : OutputFile} :
    f ∈ attemptedWritesFor es input doc ↔
      ∃ e, e ∈ es ∧ pagesFor doc e.lastName ≠ [] ∧
        f = ⟨date input ++ " " ++ e.fullName ++ ".pdf", pagesFor doc e.lastName⟩ := by
  simp only [attemptedWritesFor, List.mem_filterMap]
  constructor
  · rintro ⟨e, he, hf⟩
    by_cases hps : (pagesFor doc e.lastName).isEmpty
    · simp [hps] at hf
    · refine ⟨e, he, ?_, ?_⟩
      · simpa [List.isEmpty_iff] using hps
      · simp only [hps, Bool.false_eq_true, if_false, Option.some.injEq] at hf
        exact hf.symm
  · rintro ⟨e, he, hne, rfl⟩
    refine ⟨e, he, ?_⟩
    have : (pagesFor doc e.lastName).isEmpty = false := by
      simpa [List.isEmpty_iff] using hne
    simp [this]

/- ### Filesystem operations performed by the script -/

/-- A filesystem operation the script can perform: a `pdftk ... output` write,
a directory creation, or the final `rm $temp_file`. -/
inductive FsOp where
  | write (path : String) (pages : List Nat)
  | mkdir (path : String)
  | rmTemp
deriving DecidableEq

/-- Is the operation a directory creation? -/
def FsOp.isMkdirOp : FsOp → Bool
  | .mkdir _ => true
  | _ => false

/-- The ordered filesystem operations of one run with an input file: the
attempted per-employee writes, then `rm $temp_file`.  The script contains
no `mkdir`. -/
def scriptOps (input : String) (doc : Doc) : List FsOp :=
  ((attemptedWrites input doc).map fun f => FsOp.write f.filename f.pages) ++ [FsOp.rmTemp]

/- ### Temporary file and exit status -/

/-- Whether `temp.pdf` exists after the name/page loops: it is created by the
first `pdftk ... cat $page output $temp_file` that succeeds (`fails p` says
the extraction of page `p` fails; a failing command does not abort the
script, which has no `set -e`). -/
def tempAfterPageLoops (fails : Nat → Bool) (doc : Doc) : Bool :=
  names.any fun _ => (List.range' 1 doc.pageCount).any fun p => ! fails p

/-- `rm $temp_file`: after it the temporary file does not exist, whether or
not it existed before. -/
def afterRm (_tempExisted : Bool) : Bool := false

/-- Whether `temp.pdf` exists when the script terminates.  The script has
exactly two exit paths: the `exit 1` when no argument is given (before the
temporary file is ever created), and falling off the end of the script,
which is always preceded by `rm $temp_file`. -/
def runTempAtExit (arg : Option String) (fails : Nat → Bool) (doc : Doc) : Bool :=
  match arg with
  | none => false
  | some _ => afterRm (tempAfterPageLoops fails doc)

/-- The script's exit status: `exit 1` when no argument is given; otherwise
the status of the final `rm $temp_file`, which succeeds exactly when the
temporary file exists (i.e. when at least one page was extracted). -/
def runExitCode (arg : Option String) (doc : Doc) : Nat :=
  match arg with
  | none => 1
  | some _ => if tempAfterPageLoops (fun _ => false) doc then 0 else 1

/- ### Period shape -/

/-- Does a string match `^\d\x7b4\x7d(-\d\x7b2\x7d)?$` (a four-digit year
optionally followed by a dash and a two-digit month)? -/
def periodShape (s : String) : Bool :=
  match s.data with
  | [y1, y2, y3, y4] => y1.isDigit && y2.isDigit && y3.isDigit && y4.isDigit
  | [y1, y2, y3, y4, d, m1, m2] =>
      y1.isDigit && y2.isDigit && y3.isDigit && y4.isDigit &&
        d == '-' && m1.isDigit && m2.isDigit
  | _ => false

/- ### Spec-side normalizer (for comparison with the code's matching) -/

/-- Diacritic stripping on the letters relevant here, as the spec's
`NameNormalizer.normalize` describes ("strips diacritics"); the code-side
matching (`containsNameCI`) performs no such stripping. -/
def stripDiacritic (c : Char) : Char :=
  if c = 'é' ∨ c = 'è' ∨ c = 'ê' ∨ c = 'ë' then 'e'
  else if c = 'É' ∨ c = 'È' ∨ c = 'Ê' ∨ c = 'Ë' then 'E'
  else if c = 'à' ∨ c = 'â' then 'a'
  else if c = 'ç' then 'c'
  else c

/-- The spec's normalization: strip diacritics, then lower-case. -/
def specNormalize (s : String) : List Char :=
  (s.data.map stripDiacritic).map lowerAscii

/-- The spec's `contains`: normalized needle occurs in normalized haystack. -/
def specContains (haystack needle : String) : Bool :=
  hasSub (specNormalize needle) (specNormalize haystack)

/- ### The remote employee directory (spec-modelled) -/

/-- Modelled from the spec: the `EmployeeDirectory` of the Python
pay-slip-splitter described by the repository README (it downloads the
employee list from GitHub) is not among the available source files — the
shell variant hardcodes its list instead.  Following §4.4 of the spec:
`load` yields the fetched directory, and on network/parse failure it is a
fatal error; no partial directory is produced. -/
def loadDirectory (fetched : Option (List Employee)) : Except String (List Employee) :=
  match fetched with
  | none => Except.error "employee directory fetch failed"
  | some es => Except.ok es

/-- Modelled from the spec: the pipeline loads the directory once, then
splits; a load failure terminates the run before any write happens. -/
def pipelineRun (fetched : Option (List Employee)) (input : String) (doc : Doc) :
    Except String (List OutputFile) :=
  match loadDirectory fetched with
  | Except.error e => Except.error e
  | Except.ok es => Except.ok (attemptedWritesFor es input doc)

/-- The files a pipeline run leaves in the output directory: none when the
run terminated with a fatal error. -/
def filesWritten : Except String (List OutputFile) → List OutputFile
  | Except.ok fs => fs
  | Except.error _ => []

/- ### Page accounting -/

/-- Total number of pages written, summed over output files (with
multiplicity: a page written into two files counts twice). -/
def sumPages (fs : List OutputFile) : Nat :=
  (fs.map fun f => f.pages.length).sum

/-- All pages written, concatenated over the output files. -/
def allWrittenPages (fs : List OutputFile) : List Nat :=
  (fs.map fun f => f.pages).flatten

/- ### Concrete documents used as witnesses and counterexamples -/

/-- A one-page document whose page mentions two different employees'
last names. -/
def docShared : Doc := ⟨1, fun _ => "BERNIER et FELTIN"⟩

/-- A one-page document mentioning a single employee. -/
def docBernier : Doc := ⟨1, fun _ => "Période de paie : du 01/09/2025 pour BERNIER Antoine"⟩

/-- A one-page document mentioning no employee. -/
def docNone : Doc := ⟨1, fun _ => "rien ici"⟩

/- ### Helper lemmas about `date` -/

theorem date_chars_ne_space (input : String) :
    ∀ c ∈ (date input).data, (c != ' ') = true := by
  intro c hc
  exact List.all_eq_true.mp (List.all_takeWhile (l := input.data)) c hc

theorem writtenFiles_true (input : String) (doc : Doc) :
    writtenFiles true input doc = attemptedWrites input doc := rfl

theorem date_append_space_right (input t : String) :
    date (date input ++ " " ++ t) = date input := by
  have hdata : (date input ++ " " ++ t).data = (date input).data ++ ' ' :: t.data := by
    simp [String.data_append]
  show String.mk ((date input ++ " " ++ t).data.takeWhile fun c => c != ' ') = date input
  rw [hdata,
    @List.takeWhile_append_of_pos _ (fun c => c != ' ') (date input).data (' ' :: t.data)
      (date_chars_ne_space input),
    List.takeWhile_cons_of_neg (by simp)]
  simp

/- ## The claims -/

/-- C1: for every employee with at least one matched page, the output file
written for that employee contains exactly the pages whose text matched the
employee's last name, in ascending page order, and no other pages. -/
theorem c1_output_contains_exactly_matched_pages (input : String) (doc : Doc)
    (e : Employee) (he : e ∈ shellEmployees) (hne : pagesFor doc e.lastName ≠ []) :
    ∃ f, f ∈ writtenFiles true input doc ∧
      f.filename = date input ++ " " ++ e.fullName ++ ".pdf" ∧
      f.pages.Pairwise (· < ·) ∧
      ∀ p, p ∈ f.pages ↔
        1 ≤ p ∧ p ≤ doc.pageCount ∧ containsNameCI (doc.pageText p) e.lastName = true := by
  refine ⟨⟨date input ++ " " ++ e.fullName ++ ".pdf", pagesFor doc e.lastName⟩, ?_, rfl, ?_, ?_⟩
  · rw [writtenFiles_true]
    exact mem_attemptedWritesFor.mpr ⟨e, he, hne, rfl⟩
  · exact pagesFor_pairwise doc e.lastName
  · intro p
    exact mem_pagesFor

/-- Witness for C1: a concrete one-page document naming Bernier, split with a
dated input file name. -/
theorem c1_witness :
    ((⟨"Bernier", "Bernier Antoine"⟩ : Employee) ∈ shellEmployees ∧
      pagesFor docBernier "Bernier" ≠ []) ∧
    (∃ f, f ∈ writtenFiles true "2023-07 bulletins.pdf" docBernier ∧
      f.filename = date "2023-07 bulletins.pdf" ++ " " ++ "Bernier Antoine" ++ ".pdf" ∧
      f.pages.Pairwise (· < ·) ∧
      ∀ p, p ∈ f.pages ↔
        1 ≤ p ∧ p ≤ docBernier.pageCount ∧
          containsNameCI (docBernier.pageText p) "Bernier" = true) :=
  ⟨⟨by decide, by decide⟩,
    c1_output_contains_exactly_matched_pages "2023-07 bulletins.pdf" docBernier
      ⟨"Bernier", "Bernier Antoine"⟩ (by decide) (by decide)⟩

/-- C2 counterexample: on a one-page document whose page mentions two
employees, two one-page files are written, so the sum of page counts
across output files is 2, exceeding the document's single page. -/
theorem c2_counterexample :
    docShared.pageCount = 1 ∧
    sumPages (writtenFiles true "paies.pdf" docShared) = 2 ∧
    ¬ sumPages (writtenFiles true "paies.pdf" docShared) ≤ docShared.pageCount := by
  decide

/-- C2 amended: the number of distinct pages written across all output files
is at most the input document's total page count (the plain sum can exceed
it because one page may be written into several employees' files). -/
theorem c2_distinct_written_pages_le_pageCount (input : String) (doc : Doc) :
    (allWrittenPages (writtenFiles true input doc)).toFinset.card ≤ doc.pageCount := by
  have hsub : ∀ p ∈ allWrittenPages (writtenFiles true input doc),
      p ∈ List.range' 1 doc.pageCount := by
    intro p hp
    simp only [allWrittenPages, List.mem_flatten, List.mem_map] at hp
    obtain ⟨l, ⟨f, hf, rfl⟩, hpl⟩ := hp
    rw [writtenFiles_true] at hf
    obtain ⟨e, _, _, rfl⟩ := mem_attemptedWritesFor.mp hf
    exact pagesFor_subset doc e.lastName hpl
  calc (allWrittenPages (writtenFiles true input doc)).toFinset.card
      ≤ (List.range' 1 doc.pageCount).toFinset.card := by
        apply Finset.card_le_card
        intro p hp
        rw [List.mem_toFinset] at hp ⊢
        exact hsub p hp
    _ ≤ (List.range' 1 doc.pageCount).length := List.toFinset_card_le _
    _ = doc.pageCount := List.length_range' 1 1 doc.pageCount

/-- C3 counterexample: the code's matching is not accent-insensitive — the
needle `legeron` is not found in the haystack `Légeron`, although the
spec-side normalizer (diacritics stripped, lower-cased) finds it. -/
theorem c3_counterexample :
    containsNameCI "Légeron" "legeron" = false ∧
    specContains "Légeron" "legeron" = true := by
  decide

/-- C3 amended: matching is case-insensitive only (ASCII case folding, no
diacritic stripping): `containsNameCI` returns true iff the case-folded
needle is a substring of the case-folded haystack; the case-insensitive
example holds, the accented example does not (the script's hardcoded name
list stores the unaccented form `Legeron` instead). -/
theorem c3_matching_case_insensitive_only :
    (∀ h n : String, containsNameCI h n = true ↔
        (n.data.map lowerAscii) <:+: (h.data.map lowerAscii)) ∧
    containsNameCI "Période de paie : du 01/09/2025 pour BERNIER Antoine" "Bernier" = true ∧
    containsNameCI "Légeron" "legeron" = false :=
  ⟨fun h n => hasSub_iff _ _, by decide, by decide⟩

/-- C4 counterexample: the script attempts no pattern-based period
extraction: for the input file name `BP_2025-09.pdf` (no space, no page
text date, no folder date) the period used for naming is the whole string
`BP_2025-09.pdf`, not `2025-09` as the claim's example requires. -/
theorem c4_counterexample :
    date "BP_2025-09.pdf" = "BP_2025-09.pdf" ∧
    date "BP_2025-09.pdf" ≠ "2025-09" ∧
    writtenFiles true "BP_2025-09.pdf" docBernier =
      [⟨"BP_2025-09.pdf Bernier Antoine.pdf", [1]⟩] := by
  decide

/-- C4 amended: the period used for output naming is the input file path up
to (but not including) the first space — no folder-name, file-name or
page-text pattern is ever tried — and every output file is named
`<period> <full name>.pdf`. -/
theorem c4_period_is_input_up_to_first_space (input : String) (doc : Doc)
    (f : OutputFile) (hf : f ∈ writtenFiles true input doc) :
    (date input).data = input.data.takeWhile (fun c => c != ' ') ∧
    ∃ e, e ∈ shellEmployees ∧
      f.filename = date input ++ " " ++ e.fullName ++ ".pdf" := by
  refine ⟨rfl, ?_⟩
  rw [writtenFiles_true] at hf
  obtain ⟨e, he, _, rfl⟩ := mem_attemptedWritesFor.mp hf
  exact ⟨e, he, rfl⟩

/-- Witness for C4 amended, at the claim's own example input. -/
theorem c4_amended_witness :
    (date "BP_2025-09.pdf").data = "BP_2025-09.pdf".data.takeWhile (fun c => c != ' ') ∧
    ∃ e, e ∈ shellEmployees ∧
      ("BP_2025-09.pdf Bernier Antoine.pdf" : String) =
        date "BP_2025-09.pdf" ++ " " ++ e.fullName ++ ".pdf" :=
  c4_period_is_input_up_to_first_space "BP_2025-09.pdf" docBernier
    ⟨"BP_2025-09.pdf Bernier Antoine.pdf", [1]⟩ (by decide)

/-- C5: the employee directory is loaded once per run; when the load fails
the run terminates with a fatal error before any output file is written
(zero files in the output directory), and no partial directory is used; a
successful load proceeds to the split.  (The remote-fetching directory is
modelled from the spec, see `loadDirectory`.) -/
theorem c5_directory_fetch_failure_is_fatal (input : String) (doc : Doc) :
    pipelineRun none input doc = Except.error "employee directory fetch failed" ∧
    filesWritten (pipelineRun none input doc) = [] ∧
    ∀ es, pipelineRun (some es) input doc = Except.ok (attemptedWritesFor es input doc) :=
  ⟨rfl, rfl, fun _ => rfl⟩

/-- C6: when no employee's last name occurs on any page of a (non-empty)
input document, the run writes zero output files and exits with status 0. -/
theorem c6_no_match_zero_files_success_exit (input : String) (doc : Doc)
    (hpc : 1 ≤ doc.pageCount)
    (hno : ∀ p : Nat, ∀ e ∈ shellEmployees,
      containsNameCI (doc.pageText p) e.lastName = false) :
    writtenFiles true input doc = [] ∧ runExitCode (some input) doc = 0 := by
  constructor
  · rw [writtenFiles_true]
    show attemptedWritesFor shellEmployees input doc = []
    rw [attemptedWritesFor, List.filterMap_eq_nil_iff]
    intro e he
    have hps : pagesFor doc e.lastName = [] := by
      rw [pagesFor, List.filter_eq_nil_iff]
      intro p _
      simp [hno p e he]
    simp [hps]
  · show runExitCode (some input) doc = 0
    have hany : (List.range' 1 doc.pageCount).any (fun p => !false) = true := by
      rw [List.any_eq_true]
      refine ⟨1, ?_, rfl⟩
      rw [List.mem_range'_1]
      omega
    simp only [runExitCode, tempAfterPageLoops, names, List.any_cons, hany]
    simp

/-- Witness for C6: a one-page document mentioning no employee. -/
theorem c6_witness :
    1 ≤ docNone.pageCount ∧
    (writtenFiles true "paies.pdf" docNone = [] ∧
      runExitCode (some "paies.pdf") docNone = 0) :=
  ⟨by decide,
    c6_no_match_zero_files_success_exit "paies.pdf" docNone (by decide)
      (fun p => by
        have hc : ∀ e ∈ shellEmployees, containsNameCI "rien ici" e.lastName = false := by
          decide
        exact hc)⟩

/-- C7: the temporary single-page extraction file does not survive any exit
path of the run: neither the missing-argument exit (before the file is ever
created) nor the fall-through end of the script (the final `rm`), including
runs in which page-extraction commands failed (the script has no `set -e`,
so such failures do not abort it). -/
theorem c7_temp_file_deleted_on_all_exit_paths (arg : Option String)
    (fails : Nat → Bool) (doc : Doc) :
    runTempAtExit arg fails doc = false := by
  cases arg <;> rfl

/-- C8 counterexample: a run whose operation trace contains write operations
but no directory creation at all — with the output directory absent, the
writes fail and zero files are produced, contradicting the claim that the
splitter creates the directory and the run still succeeds in writing. -/
theorem c8_counterexample :
    scriptOps "paies.pdf" docShared =
      [FsOp.write "paies.pdf Bernier Antoine.pdf" [1],
       FsOp.write "paies.pdf Feltin Clément.pdf" [1],
       FsOp.rmTemp] ∧
    ((scriptOps "paies.pdf" docShared).all fun op => ! op.isMkdirOp) = true ∧
    writtenFiles false "paies.pdf" docShared = [] := by
  decide

/-- C8 amended: the script never creates the output directory (its operation
trace contains no mkdir), so when the output directory is absent no output
file is produced. -/
theorem c8_no_mkdir_ever (input : String) (doc : Doc) :
    ((scriptOps input doc).all fun op => ! op.isMkdirOp) = true ∧
    writtenFiles false input doc = [] := by
  constructor
  · rw [List.all_eq_true]
    intro op hop
    simp only [scriptOps, List.mem_append, List.mem_map, List.mem_singleton] at hop
    rcases hop with ⟨f, _, rfl⟩ | rfl <;> rfl
  · rfl

/-- C9 counterexample: a run whose input path has no leading date yields an
output file whose leading period token (`paies.pdf`) does not match the
pattern of a four-digit year optionally followed by a two-digit month. -/
theorem c9_counterexample :
    writtenFiles true "paies.pdf" docBernier =
      [⟨"paies.pdf Bernier Antoine.pdf", [1]⟩] ∧
    date "paies.pdf" = "paies.pdf" ∧
    periodShape (date "paies.pdf") = false := by
  decide

/-- C9 amended: only when the input path's first space-delimited field
matches the four-digit-year / optional-two-digit-month pattern does the
period token at the start of every output filename match it; the token is
copied from the input path without validation. -/
theorem c9_period_shape_when_input_leads_with_period (input : String) (doc : Doc)
    (hshape : periodShape (date input) = true) (f : OutputFile)
    (hf : f ∈ writtenFiles true input doc) :
    periodShape (date f.filename) = true := by
  rw [writtenFiles_true] at hf
  obtain ⟨e, _, _, rfl⟩ := mem_attemptedWritesFor.mp hf
  show periodShape (date (date input ++ " " ++ e.fullName ++ ".pdf")) = true
  rw [String.append_assoc, date_append_space_right]
  exact hshape

/-- Witness for C9 amended: input path starting with `2023-07`. -/
theorem c9_amended_witness :
    periodShape (date "2023-07 paies.pdf") = true ∧
    periodShape (date "2023-07 Bernier Antoine.pdf") = true :=
  ⟨by decide,
    c9_period_shape_when_input_leads_with_period "2023-07 paies.pdf" docBernier
      (by decide) ⟨"2023-07 Bernier Antoine.pdf", [1]⟩ (by decide)⟩

/-- C10: the period token of every output filename is exactly the input
path up to (excluding) the first space; for an input path containing no
space the whole path (directory components included) is used verbatim,
with no validation. -/
theorem c10_period_is_verbatim_first_space_field :
    (∀ input doc f, f ∈ writtenFiles true input doc →
      ∃ rest, f.filename = date input ++ " " ++ rest) ∧
    (∀ input : String, (∀ c ∈ input.data, (c != ' ') = true) → date input = input) := by
  constructor
  · intro input doc f hf
    rw [writtenFiles_true] at hf
    obtain ⟨e, _, _, rfl⟩ := mem_attemptedWritesFor.mp hf
    exact ⟨e.fullName ++ ".pdf", by rw [String.append_assoc]⟩
  · intro input h
    apply String.ext
    show input.data.takeWhile (fun c => c != ' ') = input.data
    have h2 := @List.takeWhile_append_of_pos _ (fun c => c != ' ') input.data [] h
    simpa using h2

/-- Witness for C10: an output file of a concrete run, and a space-free
input path with a directory component kept verbatim. -/
theorem c10_witness :
    (∃ rest, ("paies.pdf Bernier Antoine.pdf" : String) =
      date "paies.pdf" ++ " " ++ rest) ∧
    date "input/BP_2025-09.pdf" = "input/BP_2025-09.pdf" :=
  ⟨c10_period_is_verbatim_first_space_field.1 "paies.pdf" docBernier
      ⟨"paies.pdf Bernier Antoine.pdf", [1]⟩ (by decide),
    c10_period_is_verbatim_first_space_field.2 "input/BP_2025-09.pdf" (by decide)⟩

end PaySlipSplitter
